import Mathlib

/-!
Verification of the `email` package (a Go library building and parsing
RFC 5322 email messages) against its natural-language specification.

The definitions below are a shallow embedding of `email.go`.  Go byte
slices are modelled as `List Nat` (one `Nat` per byte) or, where the data
is textual, as `String`; Go's `textproto.MIMEHeader` (a map from canonical
field name to a slice of values) is modelled as an association list with
the map operations spelled out; fallible functions return `Except`.
Stdlib collaborators that the package treats as primitives (sha256,
`mime.QEncoding.Encode`, hostname resolution, the current time, the random
multipart boundary) are passed in as parameters.
-/

set_option autoImplicit false

namespace EmailSpec

/-- Model of Go `textproto.MIMEHeader`: a map from canonical header field
name to an ordered list of values.  Modelled as an association list whose
keys are unique (as produced by the Go map operations below). -/
abbrev HeaderSet := List (String × List String)

/-- Map lookup `hs[k]` returning the value slice when the key is present. -/
def hLookup : HeaderSet → String → Option (List String)
  | [], _ => none
  | e :: rest, k => if e.1 = k then some e.2 else hLookup rest k

/-- The `_, ok := hs[k]` membership test of a Go map. -/
def hMem (hs : HeaderSet) (k : String) : Bool :=
  (hLookup hs k).isSome

/-- `textproto.MIMEHeader.Get`: first value for the key, `""` when the key
is absent or its value slice is empty. -/
def hGet (hs : HeaderSet) (k : String) : String :=
  match hLookup hs k with
  | some (v :: _) => v
  | _ => ""

/-- `textproto.MIMEHeader.Set`: replace the key's value with the
one-element slice `[v]`, inserting the key when absent. -/
def hSet (hs : HeaderSet) (k v : String) : HeaderSet :=
  if hMem hs k then hs.map (fun e => if e.1 = k then (k, [v]) else e)
  else hs ++ [(k, [v])]

/-- Go map `delete(hs, k)`. -/
def hDelete (hs : HeaderSet) (k : String) : HeaderSet :=
  hs.filter (fun e => ¬ e.1 = k)

/-- The `Email` struct (src/email.go:57-67).  `Text` and `HTML` are byte
slices holding text; they are modelled as `String`.  `Headers` is `Option`
of the map to distinguish Go's nil map from an empty one (the nil-ness is
tested by `msgHeaders`).  Attachments play no role in the claims modelled
here and are omitted. -/
structure Email where
  From : String := ""
  To : List String := []
  CC : List String := []
  BCC : List String := []
  Subject : String := ""
  Text : String := ""
  HTML : String := ""
  Headers : Option HeaderSet := none
deriving Repr, DecidableEq

/-- `defaultContentType` constant (src/email.go:45). -/
def defaultContentType : String := "text/plain; charset=us-ascii"

/-- Header-map part of `parseMediaType` (src/email.go:150-153): when the
header set has no Content-Type key, the RFC 2045 default is inserted into
the set (the set is a Go map mutated in place; the remaining lines delegate
the parse of the resulting value to stdlib `mime.ParseMediaType`). -/
def parseMediaTypeHdr (p : HeaderSet) : HeaderSet :=
  if hMem p "Content-Type" then p else hSet p "Content-Type" defaultContentType

/-- Header handling of `NewWithSize` (src/email.go:96-107): the first-class
fields are read out of the parsed header map, then `Subject`, `To`, `Cc`
and `Bcc` are deleted from that same map (which the returned `Email`'s
`Headers` field aliases).  Note the deletion loop does not include
`From`. -/
def extractEmail (hdrs : HeaderSet) : Email :=
  { Subject := hGet hdrs "Subject"
    To := (hLookup hdrs "To").getD []
    CC := (hLookup hdrs "Cc").getD []
    BCC := (hLookup hdrs "Bcc").getD []
    From := hGet hdrs "From"
    Text := ""
    HTML := ""
    Headers := some (hDelete (hDelete (hDelete (hDelete hdrs "Subject") "To") "Cc") "Bcc") }

/-- Header map of the `Email` returned by a successful decode: the
extraction step of `NewWithSize` followed by the in-place Content-Type
defaulting that `parseMIMEParts` → `parseMediaType` performs on the same
(aliased) map at src/email.go:110 and 150-153. -/
def decodeHeaders (hdrs : HeaderSet) : HeaderSet :=
  parseMediaTypeHdr ((extractEmail hdrs).Headers.getD [])

/-- The `part` struct (src/email.go:145-148): a flattened MIME leaf. -/
structure Part where
  ctyp : String
  body : String
deriving Repr, DecidableEq

/-- One iteration of the classification loop of `NewWithSize`
(src/email.go:114-121): assign `Text`/`HTML` on an exact content-type
match of the leaf. -/
def classifyStep (acc : Email) (p : Part) : Email :=
  if p.ctyp = "text/plain" then { acc with Text := p.body }
  else if p.ctyp = "text/html" then { acc with HTML := p.body }
  else acc

/-- The classification loop of `NewWithSize` (src/email.go:114-121): walk
the flattened leaf list in order.  Later matches overwrite earlier ones. -/
def classifyParts (e : Email) (ps : List Part) : Email :=
  ps.foldl classifyStep e

/-- `strings.Join(xs, ", ")`. -/
def joinComma (xs : List String) : String :=
  String.intercalate ", " xs

/-- `msgHeaders` (src/email.go:269-312).  `dateStr` stands for
`time.Now().Format(time.RFC1123Z)` and `msgIdStr` for `e.messageID(now)`,
both injected because they depend on ambient state (clock, hostname).

The first block mirrors the Go copy loop `res[h] = e.Headers[h]` run only
when `e.Headers` is a non-nil map: a Go map assignment creates the key
even when `e.Headers[h]` is the nil slice, so after the loop all six keys
are present in `res` whatever `e.Headers` contains. -/
def msgHeaders (e : Email) (dateStr msgIdStr : String) : Except String HeaderSet :=
  let res0 : HeaderSet :=
    match e.Headers with
    | none => []
    | some hs =>
        [("To", (hLookup hs "To").getD []),
         ("Cc", (hLookup hs "Cc").getD []),
         ("From", (hLookup hs "From").getD []),
         ("Subject", (hLookup hs "Subject").getD []),
         ("Date", (hLookup hs "Date").getD []),
         ("Message-Id", (hLookup hs "Message-Id").getD [])]
  let res1 := if !hMem res0 "To" && !e.To.isEmpty then hSet res0 "To" (joinComma e.To) else res0
  let res2 := if !hMem res1 "Cc" && !e.CC.isEmpty then hSet res1 "Cc" (joinComma e.CC) else res1
  let res3 := if !hMem res2 "Subject" && !(e.Subject = "") then hSet res2 "Subject" e.Subject else res2
  if !hMem res3 "From" && e.From = "" then
    Except.error "email: 'From' field cannot be empty"
  else
  let res4 := if !hMem res3 "From" then hSet res3 "From" e.From else res3
  let res5 := if !hMem res4 "Date" then hSet res4 "Date" dateStr else res4
  let res6 := if !hMem res5 "Message-Id" then hSet res5 "Message-Id" msgIdStr else res5
  let res7 := if !hMem res6 "Mime-Version" then hSet res6 "Mime-Version" "1.0" else res6
  let res8 := (e.Headers.getD []).foldl
    (fun r fv => if hMem r fv.1 then r else r ++ [fv]) res7
  Except.ok res8

/-- `countWriter` state (src/email.go:328-331): the bytes that have
reached the underlying sink `w`, and the byte counter `n`. -/
structure CountWriter where
  out : String
  n : Nat
deriving Repr, DecidableEq

/-- `countWriter.Write` (src/email.go:333-337): forwards to the sink and
adds the number of bytes written to the counter. -/
def cwWrite (c : CountWriter) (s : String) : CountWriter :=
  { out := c.out ++ s, n := c.n + s.utf8ByteSize }

/-- `countWriter.WriteString` (src/email.go:339-341): forwards to the sink
via `io.WriteString(c.w, p)` but does not add to the counter `n`. -/
def cwWriteString (c : CountWriter) (s : String) : CountWriter :=
  { out := c.out ++ s, n := c.n }

/-- `io.WriteString(w, s)` with `w` the `*countWriter`: since
`*countWriter` has a `WriteString` method, the stdlib helper dispatches to
it (the `io.StringWriter` fast path), not to `Write`. -/
def ioWriteString (c : CountWriter) (s : String) : CountWriter :=
  cwWriteString c s

/-- `writeHeader` (src/email.go:494-508): one `Field: value\r\n` line per
value, everything emitted through `io.WriteString` on the given writer.
`enc` stands for stdlib `mime.QEncoding.Encode("UTF-8", ·)`, applied to
every field except Content-Type and Content-Disposition.  The Go map
iteration order is unspecified; the model fixes the list order, which
leaves the byte and count totals unaffected. -/
def writeHeaderModel (enc : String → String) (c : CountWriter) (hdrs : HeaderSet) : CountWriter :=
  hdrs.foldl (fun c fv =>
    fv.2.foldl (fun c subval =>
      let c := ioWriteString c fv.1
      let c := ioWriteString c ": "
      let c := if fv.1 = "Content-Type" ∨ fv.1 = "Content-Disposition"
               then ioWriteString c subval
               else ioWriteString c (enc subval)
      ioWriteString c "\r\n") c) c

/-- `Email.writeTo` (src/email.go:350-434) driven through the
`countWriter` that `WriteTo` (src/email.go:344-348) wraps around the sink,
for a message with empty `Text`, empty `HTML` and no attachments (both
body blocks are skipped).  `boundary` stands for the random boundary of
`multipart.NewWriter`.  The header block and the blank separator line go
through `io.WriteString` (hence `countWriter.WriteString`); the boundary
line (`fmt.Fprintf`) and the closing delimiter written by
`multipart.Writer.Close` go through `countWriter.Write`. -/
def writeToModel (enc : String → String) (e : Email) (dateStr msgIdStr boundary : String) :
    Except String CountWriter :=
  match msgHeaders e dateStr msgIdStr with
  | Except.error s => Except.error s
  | Except.ok hdrs0 =>
    let hdrs := hSet hdrs0 "Content-Type" ("multipart/mixed;\r\n boundary=" ++ boundary)
    let c : CountWriter := { out := "", n := 0 }
    let c := writeHeaderModel enc c hdrs
    let c := ioWriteString c "\r\n"
    let c := cwWrite c ("--" ++ boundary ++ "\r\n")
    let c := cwWrite c ("\r\n--" ++ boundary ++ "--\r\n")
    Except.ok c

/-- The byte stream fed to the sha256 digest by `Email.messageID`
(src/email.go:518-531), in write order: `From`, `Subject`, `Text`, `HTML`.
The rounded timestamp is formatted by
`ts.Round(5*time.Minute).AppendFormat(buf[0:0], time.RFC3339)` into a
local buffer whose result is discarded (src/email.go:524-525); no
timestamp byte is ever written to the hash, so the input does not depend
on `ts`. -/
def messageIDHashInput (e : Email) (ts : Int) : String :=
  e.From ++ e.Subject ++ e.Text ++ e.HTML

/-- `Email.messageID` (src/email.go:518-531).  `digest` abstracts the
stdlib chain `hex(sha256(input)[4:20])` (a pure function of the hash
input) and `host` the process-wide cached hostname. -/
def messageID (digest : String → String) (host : String) (e : Email) (ts : Int) : String :=
  "<" ++ digest (messageIDHashInput e ts) ++ "@" ++ host ++ ">"

/-- Byte-level model of `unicode.IsSpace` for single-byte (ASCII) code
points: `\t`, `\n`, vertical tab, form feed, `\r`, space.  All inputs used
in the theorems below are ASCII. -/
def isSpace (b : Nat) : Bool :=
  b = 9 || b = 10 || b = 11 || b = 12 || b = 13 || b = 32

/-- `trimReader.Read` (src/email.go:76-82) applied to the chunk an
underlying read call returned: `bytes.TrimLeftFunc(buf[:n], unicode.IsSpace)`
drops the leading whitespace run of this chunk. -/
def trimRead (chunk : List Nat) : List Nat :=
  chunk.dropWhile isSpace

/-- The chunk sequence a consumer of `trimReader` observes, given the
chunk sequence the underlying reader produces: `trimReader` keeps no state
between calls, so every chunk is trimmed independently. -/
def trimReadAll (chunks : List (List Nat)) : List (List Nat) :=
  chunks.map trimRead

/-- `maxLineLength` constant (src/email.go:26). -/
def maxLineLength : Nat := 76

/-- `chunkWriter` state (src/email.go:439-443): bytes received by the
underlying sink, the byte count `n` since the last line break, and whether
`err` has been set to `errClosed`. -/
structure ChunkWriter where
  out : List Nat
  n : Nat
  closed : Bool
deriving Repr, DecidableEq

/-- The loop body of `chunkWriter.Write` (src/email.go:450-472), fuelled
by the length of the remaining input (each iteration consumes at least one
byte, so `p.length` fuel always suffices and the fuel-exhausted branch is
unreachable from `chunkWrite`).  The sink is modelled as an infallible
buffer, so the short-write/error paths do not arise. -/
def chunkLoop : Nat → ChunkWriter → List Nat → ChunkWriter
  | 0, c, _ => c
  | _ + 1, c, [] => c
  | fuel + 1, c, p@(_ :: _) =>
    let m0 := maxLineLength - c.n
    let m1 := if m0 = 0 then maxLineLength else m0
    let m := min m1 p.length
    let c1 : ChunkWriter := { out := c.out ++ p.take m, n := c.n + m, closed := c.closed }
    let c2 : ChunkWriter :=
      if c1.n = maxLineLength then { out := c1.out ++ [13, 10], n := 0, closed := c1.closed }
      else c1
    chunkLoop fuel c2 (p.drop m)

/-- `chunkWriter.Write` (src/email.go:445-474): a closed writer rejects
the write (returns `errClosed` having written nothing), otherwise the
chunking loop runs to completion. -/
def chunkWrite (c : ChunkWriter) (p : List Nat) : ChunkWriter :=
  if c.closed then c else chunkLoop p.length c p

/-- `chunkWriter.Close` (src/email.go:476-483): a second close returns the
stored error; the first close records `errClosed` and emits one final CRLF
to the sink. -/
def chunkClose (c : ChunkWriter) : ChunkWriter :=
  if c.closed then c else { out := c.out ++ [13, 10], n := c.n, closed := true }

/-- Reference chunking function: copy the bytes, inserting CRLF after
every 76th byte of the current line; `k` counts the bytes the current line
can still take. -/
def insertCRLFGo : List Nat → Nat → List Nat
  | [], _ => []
  | b :: rest, k =>
    if k = 1 then b :: 13 :: 10 :: insertCRLFGo rest maxLineLength
    else b :: insertCRLFGo rest (k - 1)

/-- CRLF inserted after every 76th byte, starting a fresh line. -/
def insertCRLF (d : List Nat) : List Nat :=
  insertCRLFGo d maxLineLength

/-- De-chunking: drop the two CRLF terminator bytes that follow each
76-byte payload line; `k` counts the payload bytes still expected on the
current line. -/
def dechunkGo : Nat → List Nat → List Nat
  | _, [] => []
  | Nat.succ k, b :: rest => b :: dechunkGo k rest
  | 0, [_] => []
  | 0, _ :: _ :: rest => dechunkGo maxLineLength rest

/-- Strip the CRLF terminator after each 76-byte line. -/
def dechunk (l : List Nat) : List Nat :=
  dechunkGo maxLineLength l

/-- Split a byte sequence at each (leftmost-first) CRLF pair, yielding the
lines. -/
def splitCRLF : List Nat → List (List Nat)
  | [] => [[]]
  | [b] => [[b]]
  | b :: b2 :: rest =>
    if b = 13 ∧ b2 = 10 then [] :: splitCRLF rest
    else
      match splitCRLF (b2 :: rest) with
      | [] => [[b]]
      | l :: ls => (b :: l) :: ls

/-! ### Association-list lemmas for the header-map model -/

theorem hLookup_hDelete (hs : HeaderSet) (k k' : String) :
    hLookup (hDelete hs k) k' = if k' = k then none else hLookup hs k' := by
  induction hs with
  | nil => simp [hDelete, hLookup]
  | cons e rest ih =>
    by_cases h1 : e.1 = k <;> by_cases h2 : k' = k <;>
      simp_all [hDelete, hLookup, List.filter_cons] <;>
      by_cases h3 : e.1 = k' <;> simp_all [hLookup]

theorem hLookup_map_repl_self (hs : HeaderSet) (k v : String) (hm : hMem hs k = true) :
    hLookup (hs.map (fun e => if e.1 = k then (k, [v]) else e)) k = some [v] := by
  induction hs with
  | nil => simp [hMem, hLookup] at hm
  | cons e rest ih =>
    by_cases h1 : e.1 = k
    · simp [hLookup, h1]
    · simp_all [hMem, hLookup, h1]

theorem hLookup_append_single_self (hs : HeaderSet) (k v : String) (hm : hMem hs k = false) :
    hLookup (hs ++ [(k, [v])]) k = some [v] := by
  induction hs with
  | nil => simp [hLookup]
  | cons e rest ih =>
    by_cases h1 : e.1 = k
    · simp [hMem, hLookup, h1] at hm
    · simp_all [hMem, hLookup, h1]

theorem hLookup_map_repl_other (hs : HeaderSet) (k v k' : String) (h : k' ≠ k) :
    hLookup (hs.map (fun e => if e.1 = k then (k, [v]) else e)) k' = hLookup hs k' := by
  induction hs with
  | nil => rfl
  | cons e rest ih =>
    by_cases h1 : e.1 = k
    · simp [hLookup, h1, Ne.symm h, ih]
    · by_cases h2 : e.1 = k' <;> simp [hLookup, h1, h2, h, ih]

theorem hLookup_append_single_other (hs : HeaderSet) (k v k' : String) (h : k' ≠ k) :
    hLookup (hs ++ [(k, [v])]) k' = hLookup hs k' := by
  induction hs with
  | nil => simp [hLookup, Ne.symm h]
  | cons e rest ih =>
    by_cases h2 : e.1 = k' <;> simp [hLookup, h2, ih]

theorem hLookup_hSet_self (hs : HeaderSet) (k v : String) :
    hLookup (hSet hs k v) k = some [v] := by
  unfold hSet
  cases hm : hMem hs k with
  | true => simp [hLookup_map_repl_self hs k v hm]
  | false => simp [hLookup_append_single_self hs k v hm]

theorem hLookup_hSet_other (hs : HeaderSet) (k v k' : String) (h : k' ≠ k) :
    hLookup (hSet hs k v) k' = hLookup hs k' := by
  unfold hSet
  cases hm : hMem hs k with
  | true => simp [hLookup_map_repl_other hs k v k' h]
  | false => simp [hLookup_append_single_other hs k v k' h]

/-- Lookup characterization of the header map a successful decode returns:
`Subject`/`To`/`Cc`/`Bcc` are gone, a default Content-Type appears when the
input had none, and every other field (including `From`) is untouched. -/
theorem decodeHeaders_lookup (hdrs : HeaderSet) (k : String) :
    hLookup (decodeHeaders hdrs) k =
      if k = "Subject" ∨ k = "To" ∨ k = "Cc" ∨ k = "Bcc" then none
      else if k = "Content-Type" ∧ hLookup hdrs "Content-Type" = none then
        some [defaultContentType]
      else hLookup hdrs k := by
  have hD : ∀ k', hLookup ((extractEmail hdrs).Headers.getD []) k' =
      if k' = "Subject" ∨ k' = "To" ∨ k' = "Cc" ∨ k' = "Bcc" then none
      else hLookup hdrs k' := by
    intro k'
    simp only [extractEmail, Option.getD_some, hLookup_hDelete]
    by_cases h1 : k' = "Bcc" <;> by_cases h2 : k' = "Cc" <;>
      by_cases h3 : k' = "To" <;> by_cases h4 : k' = "Subject" <;>
      simp [h1, h2, h3, h4]
  have hCT : hLookup ((extractEmail hdrs).Headers.getD []) "Content-Type" =
      hLookup hdrs "Content-Type" := by
    rw [hD]; simp
  unfold decodeHeaders parseMediaTypeHdr
  cases hc : hLookup hdrs "Content-Type" with
  | some vs =>
    have hm : hMem ((extractEmail hdrs).Headers.getD []) "Content-Type" = true := by
      unfold hMem; rw [hCT, hc]; rfl
    rw [if_pos hm, hD]
    by_cases h4 : k = "Subject" ∨ k = "To" ∨ k = "Cc" ∨ k = "Bcc"
    · simp [h4]
    · simp [h4, hc]
  | none =>
    have hm : hMem ((extractEmail hdrs).Headers.getD []) "Content-Type" = false := by
      unfold hMem; rw [hCT, hc]; rfl
    rw [if_neg (by simp [hm])]
    by_cases h4 : k = "Subject" ∨ k = "To" ∨ k = "Cc" ∨ k = "Bcc"
    · have hne : k ≠ "Content-Type" := by
        rcases h4 with h | h | h | h <;> subst h <;> decide
      rw [hLookup_hSet_other _ _ _ _ hne, hD]
      simp [h4]
    · by_cases h5 : k = "Content-Type"
      · subst h5
        rw [hLookup_hSet_self]
        simp [h4, hc]
      · rw [hLookup_hSet_other _ _ _ _ h5, hD]
        simp [h4, h5, hc]

/-! ### Classification lemmas -/

theorem find?_append_some {α : Type} (l t : List α) (f : α → Bool) (q : α)
    (h : l.find? f = some q) : (l ++ t).find? f = some q := by
  induction l with
  | nil => simp [List.find?] at h
  | cons a l ih =>
    cases hf : f a <;> simp_all [List.find?]

theorem find?_append_none {α : Type} (l t : List α) (f : α → Bool)
    (h : l.find? f = none) : (l ++ t).find? f = t.find? f := by
  induction l with
  | nil => simp
  | cons a l ih =>
    cases hf : f a <;> simp_all [List.find?]

theorem classifyParts_text (e : Email) (ps : List Part) :
    (classifyParts e ps).Text =
      ((ps.reverse.find? (fun p => p.ctyp = "text/plain")).map Part.body).getD e.Text := by
  induction ps generalizing e with
  | nil => rfl
  | cons p ps ih =>
    have step : classifyParts e (p :: ps) = classifyParts (classifyStep e p) ps := rfl
    rw [step, ih, List.reverse_cons]
    cases hf : ps.reverse.find? (fun p => decide (p.ctyp = "text/plain")) with
    | some q => rw [find?_append_some _ _ _ _ hf]; simp
    | none =>
      rw [find?_append_none _ _ _ hf]
      by_cases h1 : p.ctyp = "text/plain"
      · simp [List.find?, h1, classifyStep]
      · by_cases h2 : p.ctyp = "text/html" <;> simp [List.find?, h1, h2, classifyStep]

theorem classifyParts_html (e : Email) (ps : List Part) :
    (classifyParts e ps).HTML =
      ((ps.reverse.find? (fun p => p.ctyp = "text/html")).map Part.body).getD e.HTML := by
  induction ps generalizing e with
  | nil => rfl
  | cons p ps ih =>
    have step : classifyParts e (p :: ps) = classifyParts (classifyStep e p) ps := rfl
    rw [step, ih, List.reverse_cons]
    cases hf : ps.reverse.find? (fun p => decide (p.ctyp = "text/html")) with
    | some q => rw [find?_append_some _ _ _ _ hf]; simp
    | none =>
      rw [find?_append_none _ _ _ hf]
      by_cases h1 : p.ctyp = "text/plain"
      · have h2 : ¬ p.ctyp = "text/html" := by rw [h1]; decide
        simp [List.find?, h1, h2, classifyStep]
      · by_cases h2 : p.ctyp = "text/html" <;> simp [List.find?, h1, h2, classifyStep]

/-! ### Chunk-writer lemmas -/

theorem insertCRLFGo_small (p : List Nat) : ∀ k, p.length < k → insertCRLFGo p k = p := by
  induction p with
  | nil => intro k _; rfl
  | cons b rest ih =>
    intro k hk
    simp only [List.length_cons] at hk
    have h1 : ¬ k = 1 := by omega
    simp only [insertCRLFGo, h1, if_false]
    rw [ih (k - 1) (by omega)]

theorem insertCRLFGo_split (p : List Nat) : ∀ k, 1 ≤ k → k ≤ p.length →
    insertCRLFGo p k = p.take k ++ 13 :: 10 :: insertCRLFGo (p.drop k) maxLineLength := by
  induction p with
  | nil => intro k h1 h2; simp at h2; omega
  | cons b rest ih =>
    intro k h1 h2
    by_cases hk : k = 1
    · subst hk; simp [insertCRLFGo]
    · obtain ⟨j, rfl⟩ : ∃ j, k = j + 1 := ⟨k - 1, by omega⟩
      have hj1 : 1 ≤ j := by omega
      have hj2 : j ≤ rest.length := by simp only [List.length_cons] at h2; omega
      simp only [insertCRLFGo, hk, if_false, Nat.add_sub_cancel]
      rw [ih j hj1 hj2]
      simp [List.take_succ_cons, List.drop_succ_cons]

theorem chunkLoop_spec : ∀ (fuel : Nat) (p : List Nat) (c : ChunkWriter),
    p.length ≤ fuel → c.closed = false → c.n ≤ 75 →
    chunkLoop fuel c p =
      { out := c.out ++ insertCRLFGo p (maxLineLength - c.n),
        n := (c.n + p.length) % maxLineLength, closed := false } := by
  intro fuel
  induction fuel with
  | zero =>
    intro p c hf hc hn
    have hp : p = [] := List.length_eq_zero.mp (Nat.le_zero.mp hf)
    subst hp
    cases c with
    | mk out n closed =>
      simp only [chunkLoop, insertCRLFGo, List.append_nil, List.length_nil, Nat.add_zero]
      simp only at hc hn
      subst hc
      rw [Nat.mod_eq_of_lt (by simp only [maxLineLength]; omega)]
  | succ fuel ih =>
    intro p c hf hc hn
    match p with
    | [] =>
      cases c with
      | mk out n closed =>
        simp only [chunkLoop, insertCRLFGo, List.append_nil, List.length_nil, Nat.add_zero]
        simp only at hc hn
        subst hc
        rw [Nat.mod_eq_of_lt (by simp only [maxLineLength]; omega)]
    | b :: rest =>
      have hm0 : ¬ (maxLineLength - c.n = 0) := by simp only [maxLineLength]; omega
      simp only [chunkLoop, hm0, if_false]
      by_cases hcase : maxLineLength - c.n ≤ (b :: rest).length
      · rw [min_eq_left hcase]
        have hn76 : c.n + (maxLineLength - c.n) = maxLineLength := by
          simp only [maxLineLength] at *; omega
        simp only [hn76]
        rw [if_pos trivial]
        have hfuel : ((b :: rest).drop (maxLineLength - c.n)).length ≤ fuel := by
          simp only [List.length_drop, List.length_cons] at *
          simp only [maxLineLength] at *; omega
        have hn0 : (0 : Nat) ≤ 75 := by omega
        rw [ih ((b :: rest).drop (maxLineLength - c.n))
              ⟨c.out ++ (b :: rest).take (maxLineLength - c.n) ++ [13, 10], 0, c.closed⟩
              hfuel hc hn0]
        have hsplit := insertCRLFGo_split (b :: rest) (maxLineLength - c.n)
          (by simp only [maxLineLength]; omega) hcase
        rw [ChunkWriter.mk.injEq]
        refine ⟨?_, ?_, rfl⟩
        · rw [hsplit]
          simp [List.append_assoc, Nat.sub_zero]
        · simp only [List.length_drop, List.length_cons] at *
          simp only [maxLineLength] at *
          omega
      · rw [min_eq_right (by omega)]
        have hlt : c.n + (b :: rest).length < maxLineLength := by
          simp only [List.length_cons] at *; simp only [maxLineLength] at *; omega
        rw [if_neg (by omega)]
        rw [List.take_length, List.drop_length]
        have hle : c.n + (b :: rest).length ≤ 75 := by
          simp only [maxLineLength] at hlt; omega
        rw [ih [] ⟨c.out ++ (b :: rest), c.n + (b :: rest).length, c.closed⟩
              (by simp) hc hle]
        rw [ChunkWriter.mk.injEq]
        refine ⟨?_, ?_, rfl⟩
        · rw [insertCRLFGo_small (b :: rest) _ (by simp only [maxLineLength] at *; omega)]
          simp [insertCRLFGo]
        · simp

theorem chunkWrite_spec (c : ChunkWriter) (p : List Nat)
    (hc : c.closed = false) (hn : c.n ≤ 75) :
    chunkWrite c p =
      { out := c.out ++ insertCRLFGo p (maxLineLength - c.n),
        n := (c.n + p.length) % maxLineLength, closed := false } := by
  unfold chunkWrite
  rw [if_neg (by simp [hc])]
  exact chunkLoop_spec p.length p c le_rfl hc hn

theorem insertCRLFGo_append (d q : List Nat) : ∀ k, 1 ≤ k → k ≤ maxLineLength →
    insertCRLFGo (d ++ q) k =
      insertCRLFGo d k ++
        insertCRLFGo q (maxLineLength - ((maxLineLength - k) + d.length) % maxLineLength) := by
  induction d with
  | nil =>
    intro k h1 h2
    have harg : maxLineLength - ((maxLineLength - k) + ([] : List Nat).length) % maxLineLength = k := by
      simp only [List.length_nil, maxLineLength] at *; omega
    rw [harg]
    simp [insertCRLFGo]
  | cons b d ih =>
    intro k h1 h2
    by_cases hk : k = 1
    · subst hk
      show b :: 13 :: 10 :: insertCRLFGo (d ++ q) maxLineLength =
        (b :: 13 :: 10 :: insertCRLFGo d maxLineLength) ++
          insertCRLFGo q
            (maxLineLength - ((maxLineLength - 1) + (b :: d).length) % maxLineLength)
      rw [ih maxLineLength (by simp [maxLineLength]) le_rfl]
      have harg : maxLineLength - ((maxLineLength - maxLineLength) + d.length) % maxLineLength =
          maxLineLength - ((maxLineLength - 1) + (b :: d).length) % maxLineLength := by
        simp only [List.length_cons, maxLineLength]; omega
      rw [harg]
      simp
    · have h1' : 1 ≤ k - 1 := by omega
      have h2' : k - 1 ≤ maxLineLength := by omega
      simp only [List.cons_append, insertCRLFGo, hk, if_false, List.append_eq]
      rw [ih (k - 1) h1' h2']
      have harg : maxLineLength - ((maxLineLength - (k - 1)) + d.length) % maxLineLength =
          maxLineLength - ((maxLineLength - k) + (b :: d).length) % maxLineLength := by
        simp only [List.length_cons, maxLineLength] at *; omega
      rw [harg]

theorem foldl_chunkWrite_spec (ws : List (List Nat)) : ∀ c : ChunkWriter,
    c.closed = false → c.n ≤ 75 →
    List.foldl chunkWrite c ws =
      { out := c.out ++ insertCRLFGo ws.join (maxLineLength - c.n),
        n := (c.n + ws.join.length) % maxLineLength, closed := false } := by
  induction ws with
  | nil =>
    intro c hc hn
    cases c with
    | mk out n closed =>
      simp only [List.foldl_nil, List.join_nil, insertCRLFGo, List.append_nil,
        List.length_nil, Nat.add_zero]
      simp only at hc hn
      subst hc
      rw [Nat.mod_eq_of_lt (by simp only [maxLineLength]; omega)]
  | cons p ws ih =>
    intro c hc hn
    simp only [List.foldl_cons]
    rw [chunkWrite_spec c p hc hn]
    rw [ih _ rfl (by
      have := Nat.mod_lt (c.n + p.length) (y := maxLineLength) (by simp [maxLineLength])
      simp only [maxLineLength] at this ⊢; omega)]
    rw [ChunkWriter.mk.injEq]
    refine ⟨?_, ?_, rfl⟩
    · simp only [List.join_cons]
      rw [insertCRLFGo_append p ws.join (maxLineLength - c.n)
            (by simp only [maxLineLength]; omega) (by omega)]
      have harg : maxLineLength - ((maxLineLength - (maxLineLength - c.n)) + p.length) % maxLineLength =
          maxLineLength - (c.n + p.length) % maxLineLength := by
        simp only [maxLineLength] at *; omega
      rw [harg, List.append_assoc]
    · have hlen : (p :: ws).join.length = p.length + ws.join.length := by
        simp
      rw [hlen]
      simp only [maxLineLength]
      omega

theorem dechunkGo_insertCRLFGo (d : List Nat) : ∀ k, 1 ≤ k →
    dechunkGo k (insertCRLFGo d k) = d := by
  induction d with
  | nil => intro k _; cases k <;> rfl
  | cons b d ih =>
    intro k h1
    by_cases hk : k = 1
    · subst hk
      simp only [insertCRLFGo, if_pos rfl]
      show b :: dechunkGo 0 (13 :: 10 :: insertCRLFGo d maxLineLength) = b :: d
      simp only [dechunkGo]
      rw [ih maxLineLength (by simp [maxLineLength])]
    · obtain ⟨j, rfl⟩ : ∃ j, k = j + 1 := ⟨k - 1, by omega⟩
      have hj : 1 ≤ j := by omega
      simp only [insertCRLFGo, hk, if_false, Nat.add_sub_cancel]
      show b :: dechunkGo j (insertCRLFGo d j) = b :: d
      rw [ih j hj]

/-! ### Line-splitting lemmas -/

theorem splitCRLF_cons_ne (x : Nat) (xs : List Nat) (a : List Nat) (t : List (List Nat))
    (hx : x ≠ 13) (hne : xs ≠ []) (h : splitCRLF xs = a :: t) :
    splitCRLF (x :: xs) = (x :: a) :: t := by
  match xs with
  | [] => exact absurd rfl hne
  | y :: ys =>
    simp only [splitCRLF]
    rw [if_neg (by intro hcon; exact hx hcon.1), h]

theorem splitCRLF_append_cr (a b' : List Nat) (ha : 13 ∉ a) :
    splitCRLF (a ++ 13 :: 10 :: b') = a :: splitCRLF b' := by
  induction a with
  | nil =>
    simp only [List.nil_append, splitCRLF]
    rw [if_pos (by simp)]
  | cons x a ih =>
    have hx : x ≠ 13 := fun h => ha (by simp [h])
    have ha' : 13 ∉ a := fun h => ha (List.mem_cons_of_mem _ h)
    rw [List.cons_append]
    exact splitCRLF_cons_ne x _ a (splitCRLF b') hx (by simp) (ih ha')

theorem splitCRLF_no_cr : ∀ (a : List Nat), 13 ∉ a → splitCRLF a = [a]
  | [], _ => rfl
  | [_], _ => rfl
  | x :: y :: ys, ha => by
    have hx : x ≠ 13 := fun h => ha (by simp [h])
    have ha' : 13 ∉ y :: ys := fun h => ha (List.mem_cons_of_mem _ h)
    exact splitCRLF_cons_ne x (y :: ys) (y :: ys) [] hx (by simp)
      (splitCRLF_no_cr (y :: ys) ha')

theorem splitCRLF_insertCRLFGo_bound (d : List Nat) :
    ∀ k, 1 ≤ k → k ≤ maxLineLength → 13 ∉ d →
    ∃ a t, splitCRLF (insertCRLFGo d k ++ [13, 10]) = a :: t
      ∧ a.length ≤ k ∧ ∀ l ∈ t, l.length ≤ maxLineLength := by
  induction d with
  | nil =>
    intro k h1 h2 _
    refine ⟨[], [[]], ?_, by simp, by simp⟩
    show splitCRLF (13 :: 10 :: []) = [] :: [[]]
    rfl
  | cons b d ih =>
    intro k h1 h2 hm
    have hb : b ≠ 13 := fun h => hm (by simp [h])
    have hm' : 13 ∉ d := fun h => hm (List.mem_cons_of_mem _ h)
    by_cases hk : k = 1
    · subst hk
      obtain ⟨a, t, heq, hlen, ht⟩ := ih maxLineLength (by simp [maxLineLength]) le_rfl hm'
      refine ⟨[b], a :: t, ?_, by simp, ?_⟩
      · show splitCRLF (b :: 13 :: 10 :: (insertCRLFGo d maxLineLength ++ [13, 10]))
            = [b] :: a :: t
        have hxs : splitCRLF (13 :: 10 :: (insertCRLFGo d maxLineLength ++ [13, 10]))
            = [] :: (a :: t) := by
          simp only [splitCRLF]
          rw [if_pos (by simp), heq]
        exact splitCRLF_cons_ne b _ [] (a :: t) hb (by simp) hxs
      · intro l hl
        rcases List.mem_cons.mp hl with h | h
        · subst h; exact hlen
        · exact ht l h
    · obtain ⟨j, rfl⟩ : ∃ j, k = j + 1 := ⟨k - 1, by omega⟩
      have hj1 : 1 ≤ j := by omega
      have hj2 : j ≤ maxLineLength := by omega
      obtain ⟨a, t, heq, hlen, ht⟩ := ih j hj1 hj2 hm'
      refine ⟨b :: a, t, ?_, by simp only [List.length_cons]; omega, ht⟩
      simp only [insertCRLFGo, hk, if_false, Nat.add_sub_cancel, List.cons_append]
      exact splitCRLF_cons_ne b _ a t hb (by simp) heq

/-! ### Trim-reader lemma -/

theorem trimRead_pre (pre c : List Nat) (hpre : ∀ x ∈ pre, isSpace x = true)
    (hc : c.head?.all (fun x => !isSpace x) = true) :
    trimRead (pre ++ c) = c := by
  induction pre with
  | nil =>
    cases c with
    | nil => rfl
    | cons b t =>
      have hb : isSpace b = false := by simpa using hc
      simp [trimRead, List.dropWhile_cons, hb]
  | cons x pre ih =>
    have hx : isSpace x = true := hpre x (List.mem_cons_self x pre)
    simp only [List.cons_append, trimRead, List.dropWhile_cons, hx, if_true]
    exact ih (fun y hy => hpre y (List.mem_cons_of_mem _ hy))

/-! ### Claim theorems -/

set_option maxRecDepth 10000

/-- C1: the claim says Message-Ids generated in different 5-minute buckets
differ.  In the code the bucketed timestamp is formatted into a local
buffer whose result is discarded and never written to the sha256 hash
(dead store, src/email.go:524-525), so the generated Message-Id does not
depend on the timestamp at all: for any digest function, hostname, message
and any two timestamps (in particular ones in different 5-minute buckets)
the generated ids are equal.  The same-bucket half of the claim holds
vacuously; the different-bucket half is falsified. -/
theorem messageID_ignores_timestamp (digest : String → String) (host : String)
    (e : Email) (ts1 ts2 : Int) :
    messageID digest host e ts1 = messageID digest host e ts2 := rfl

/-- C2: the claim says encoding a Message with empty sender and no From
override always fails with the required-field error, including when the
override map is non-nil without a From entry.  The Go copy loop
`res[h] = e.Headers[h]` creates a `From` key holding the nil slice
whenever `e.Headers` is non-nil, so the `_, ok := res[from]` check sees
the key as present and the empty-sender error is skipped: `msgHeaders`
succeeds with a valueless From entry.  With a nil override map the error
does fire, as the third conjunct shows. -/
theorem msgHeaders_empty_from_not_rejected :
    (∃ r, msgHeaders { From := "", Headers := some [("X-Spam", ["1"])] } "D" "M" = Except.ok r
      ∧ hLookup r "From" = some [])
    ∧ msgHeaders { From := "" } "D" "M" =
        Except.error "email: 'From' field cannot be empty" := by
  refine ⟨⟨_, rfl, ?_⟩, rfl⟩
  decide

/-- C3 counterexample: the claim says the FIRST leaf of type text/plain
populates the plain-text body.  On the flattened leaf list
`[⟨text/plain, first⟩, ⟨text/plain, second⟩]` the classification loop of
`NewWithSize` leaves `Text = "second"`, the body of the LAST text/plain
leaf, not `"first"`, the body of the first one. -/
theorem classifyParts_first_leaf_counterexample :
    (classifyParts {} [⟨"text/plain", "first"⟩, ⟨"text/plain", "second"⟩]).Text = "second"
    ∧ ([⟨"text/plain", "first"⟩, ⟨"text/plain", "second"⟩] : List Part).find?
        (fun p => p.ctyp = "text/plain") = some ⟨"text/plain", "first"⟩
    ∧ ("second" : String) ≠ "first" := by
  refine ⟨?_, ?_, ?_⟩ <;> decide

/-- C3 amended: for every decoded message, the LAST leaf whose
content-type is exactly text/plain populates the plain-text body and the
LAST leaf whose content-type is exactly text/html populates the HTML body
(the corresponding field is left unchanged when no such leaf exists). -/
theorem classifyParts_last_leaf_wins (e : Email) (ps : List Part) :
    (classifyParts e ps).Text =
      ((ps.reverse.find? (fun p => p.ctyp = "text/plain")).map Part.body).getD e.Text
    ∧ (classifyParts e ps).HTML =
      ((ps.reverse.find? (fun p => p.ctyp = "text/html")).map Part.body).getD e.HTML :=
  ⟨classifyParts_text e ps, classifyParts_html e ps⟩

/-- C4: the claim says the count returned by `WriteTo` equals the total
number of bytes written to the sink.  Every byte emitted through
`io.WriteString` on the `*countWriter` (the whole header block and the
header/body separator) is forwarded to the sink by
`countWriter.WriteString` without being added to the counter, so the
returned count is strictly smaller than the bytes actually written.
Evaluated here on a minimal message (empty bodies, no attachments) with
the ambient inputs fixed: `msgHeaders` succeeds, yet the count is short of
the output size. -/
theorem writeTo_count_omits_header_bytes :
    ∃ c, writeToModel (fun s => s) { From := "f@x.com" }
        "Sun, 05 Jan 2020 10:00:00 +0000" "<m@h>" "bdry" = Except.ok c
      ∧ c.n < c.out.utf8ByteSize := by
  refine ⟨_, rfl, ?_⟩
  decide

/-- C5: the claim says each of To/Cc/From/Subject/Date/Message-Id gets the
override value when present and the derived/default value otherwise, for
every override map including a non-nil one lacking some fields.  Two
failures on one concrete input: with a non-nil override map that lacks
`To`, the Go copy loop creates a nil-valued `To` entry that suppresses the
derivation from the structured field (the assembled map holds `To → []`
instead of the joined address list), and a `Mime-Version` override is
ignored because the default `"1.0"` is installed before the override copy
loop runs. -/
theorem msgHeaders_override_precedence_broken :
    ∃ r, msgHeaders { From := "f@x.com", To := ["a@x.com"], Headers := some [("Mime-Version", ["2.0"])] } "D" "M" = Except.ok r
      ∧ hLookup r "To" = some [] ∧ hLookup r "Mime-Version" = some ["1.0"] := by
  refine ⟨_, rfl, ?_, ?_⟩ <;> decide

/-- C6 counterexample: the claim says that once the first non-whitespace
byte has been read, later chunks are delivered unchanged even when they
start with whitespace.  With underlying chunks `["a", " b"]`, the second
chunk loses its leading space: the consumer sees `["a", "b"]`, not the
claimed `["a", " b"]`. -/
theorem trimReader_not_only_stream_start :
    trimReadAll [[97], [32, 98]] = [[97], [98]]
    ∧ trimReadAll [[97], [32, 98]] ≠ [[97], [32, 98]] := by
  refine ⟨?_, ?_⟩ <;> decide

/-- C6 amended: the trim reader is stateless and strips the leading
whitespace run from the result of EVERY underlying read call, not only at
the start of the stream: whatever chunks came before, a chunk consisting
of a whitespace prefix followed by a part that does not start with
whitespace is delivered as exactly that part. -/
theorem trimReader_trims_every_chunk (chunks : List (List Nat)) (pre c : List Nat)
    (hpre : ∀ x ∈ pre, isSpace x = true)
    (hc : c.head?.all (fun x => !isSpace x) = true) :
    trimReadAll (chunks ++ [pre ++ c]) = trimReadAll chunks ++ [c] := by
  simp [trimReadAll, trimRead_pre pre c hpre hc]

/-- C6 amended, witness: chunk `" b"` arriving after chunk `"a"` is
delivered as `"b"`. -/
theorem trimReader_trims_every_chunk_witness :
    (∀ x ∈ [32], isSpace x = true)
    ∧ (([98] : List Nat).head?.all (fun x => !isSpace x) = true)
    ∧ trimReadAll [[97], [32] ++ [98]] = trimReadAll [[97]] ++ [[98]] :=
  ⟨by decide, by decide, trimReader_trims_every_chunk [[97]] [32] [98] (by decide) (by decide)⟩

/-- C7 counterexample: the claim says the decoded Header Set contains none
of To, Cc, Bcc, Subject and From.  The deletion loop of `NewWithSize`
removes only Subject, To, Cc and Bcc; on an input with a From header the
returned Header Set still contains that From entry verbatim. -/
theorem decode_retains_from_counterexample :
    hMem (decodeHeaders [("From", ["f@x.com"]), ("To", ["t@x.com"]), ("X-Keep", ["v"])]) "From" = true
    ∧ hLookup (decodeHeaders [("From", ["f@x.com"]), ("To", ["t@x.com"]), ("X-Keep", ["v"])]) "From"
        = some ["f@x.com"] := by
  refine ⟨?_, ?_⟩ <;> decide

/-- C7 amended: after a successful decode the Header Set contains none of
To, Cc, Bcc and Subject; From is copied into the sender field but ALSO
remains in the Header Set with its value preserved; every other parsed
field remains verbatim, except that a default Content-Type entry is
inserted when the input had none. -/
theorem decode_header_set_characterization (hdrs : HeaderSet) (k : String) :
    hLookup (decodeHeaders hdrs) k =
      if k = "Subject" ∨ k = "To" ∨ k = "Cc" ∨ k = "Bcc" then none
      else if k = "Content-Type" ∧ hLookup hdrs "Content-Type" = none then
        some [defaultContentType]
      else hLookup hdrs k :=
  decodeHeaders_lookup hdrs k

/-- C8: for every sequence of write calls (of CR/LF-free payload, as the
base64 alphabet that feeds this writer is) followed by one close call, the
bytes received by the sink contain no line longer than 76 payload bytes
before a CRLF, and the close call emits exactly one trailing CRLF (even
when the current line is empty). -/
theorem chunkWriter_line_bound (ws : List (List Nat)) (h : (13 : Nat) ∉ ws.join) :
    (∀ l ∈ splitCRLF (chunkClose (List.foldl chunkWrite ⟨[], 0, false⟩ ws)).out,
        l.length ≤ maxLineLength)
    ∧ (chunkClose (List.foldl chunkWrite ⟨[], 0, false⟩ ws)).out
        = (List.foldl chunkWrite ⟨[], 0, false⟩ ws).out ++ [13, 10] := by
  rw [foldl_chunkWrite_spec ws ⟨[], 0, false⟩ rfl (Nat.zero_le 75)]
  constructor
  · simp only [chunkClose, if_neg (by simp : ¬ (false = true)), List.nil_append, Nat.sub_zero]
    obtain ⟨a, t, heq, hlen, ht⟩ :=
      splitCRLF_insertCRLFGo_bound ws.join maxLineLength
        (by simp [maxLineLength]) le_rfl h
    rw [heq]
    intro l hl
    rcases List.mem_cons.mp hl with h1 | h1
    · subst h1; exact hlen
    · exact ht l h1
  · simp [chunkClose]

/-- C8 witness: two write bursts of CR/LF-free bytes followed by close. -/
theorem chunkWriter_line_bound_witness :
    ((13 : Nat) ∉ ([[83, 83], [100, 116]] : List (List Nat)).join)
    ∧ ((∀ l ∈ splitCRLF (chunkClose (List.foldl chunkWrite ⟨[], 0, false⟩ [[83, 83], [100, 116]])).out,
          l.length ≤ maxLineLength)
      ∧ (chunkClose (List.foldl chunkWrite ⟨[], 0, false⟩ [[83, 83], [100, 116]])).out
          = (List.foldl chunkWrite ⟨[], 0, false⟩ [[83, 83], [100, 116]]).out ++ [13, 10]) :=
  ⟨by decide, chunkWriter_line_bound _ (by decide)⟩

/-- C9: for every input byte sequence and every partition of it into write
bursts fed to the chunk writer, stripping the CRLF terminator inserted
after each 76-byte line from the concatenated sink output yields exactly
the original input. -/
theorem chunkWriter_write_bursts_roundtrip (ws : List (List Nat)) :
    dechunk (List.foldl chunkWrite ⟨[], 0, false⟩ ws).out = ws.join := by
  rw [foldl_chunkWrite_spec ws ⟨[], 0, false⟩ rfl (Nat.zero_le 75)]
  show dechunkGo maxLineLength ([] ++ insertCRLFGo ws.join (maxLineLength - 0)) = ws.join
  rw [List.nil_append, Nat.sub_zero]
  exact dechunkGo_insertCRLFGo ws.join maxLineLength (by simp [maxLineLength])

/-- C10: when the decoded byte stream carries no Content-Type header, the
Header Set of the Message returned by decode holds the inserted default
`"text/plain; charset=us-ascii"` rather than leaving the field absent. -/
theorem decode_inserts_default_content_type (hdrs : HeaderSet)
    (h : hMem hdrs "Content-Type" = false) :
    hLookup (decodeHeaders hdrs) "Content-Type" = some ["text/plain; charset=us-ascii"] := by
  have hnone : hLookup hdrs "Content-Type" = none := by
    cases hc : hLookup hdrs "Content-Type" with
    | none => rfl
    | some v => unfold hMem at h; rw [hc] at h; simp at h
  rw [decodeHeaders_lookup]
  rw [if_neg (by decide), if_pos ⟨rfl, hnone⟩]
  rfl

/-- C10 witness: a header set with no Content-Type entry. -/
theorem decode_inserts_default_content_type_witness :
    hMem [("From", ["f@x.com"])] "Content-Type" = false
    ∧ hLookup (decodeHeaders [("From", ["f@x.com"])]) "Content-Type"
        = some ["text/plain; charset=us-ascii"] :=
  ⟨by decide, decode_inserts_default_content_type _ (by decide)⟩

end EmailSpec
